import Mathlib

/-!
Shallow embedding of `src/app.py` (macrodash): the per-instrument
fetch-and-normalize pipeline `get_data` (lines 30-49), the top-level
fetch guard (lines 52-56), and the key-metrics row (lines 62-76).

Pandas/yfinance dataframes are modelled as a column index plus
rectangular rows of cells.  float64 arithmetic is modelled by exact
rationals extended with the IEEE-754 special values `+inf`, `-inf` and
`nan` (negative zero and rounding are not modelled; every arithmetic
fact proved below about concrete values is exact in binary64 as well,
since all intermediate results involved are representable or rounded
back to the stated value).
-/

namespace Macrodash

/-- An IEEE-754-style extended float value: a finite float (modelled
exactly as a rational) or one of the special values produced by float64
arithmetic. -/
inductive EF where
  | fin (q : ℚ)
  | pinf
  | ninf
  | nan
deriving DecidableEq

/-- float64 subtraction on extended values. -/
def efSub : EF → EF → EF
  | .fin a, .fin b => .fin (a - b)
  | .fin _, .pinf => .ninf
  | .fin _, .ninf => .pinf
  | .pinf, .fin _ => .pinf
  | .pinf, .ninf => .pinf
  | .ninf, .fin _ => .ninf
  | .ninf, .pinf => .ninf
  | _, _ => .nan

/-- float64 division on extended values: dividing a nonzero finite value
by zero gives a signed infinity, `0/0` gives `nan` (numpy float64
semantics — no exception is raised). -/
def efDiv : EF → EF → EF
  | .fin a, .fin b =>
      if b = 0 then (if a = 0 then .nan else if 0 < a then .pinf else .ninf)
      else .fin (a / b)
  | .fin _, .pinf => .fin 0
  | .fin _, .ninf => .fin 0
  | .pinf, .fin b => if 0 ≤ b then .pinf else .ninf
  | .ninf, .fin b => if 0 ≤ b then .ninf else .pinf
  | _, _ => .nan

/-- float64 multiplication on extended values. -/
def efMul : EF → EF → EF
  | .fin a, .fin b => .fin (a * b)
  | .fin a, .pinf => if a = 0 then .nan else if 0 < a then .pinf else .ninf
  | .fin a, .ninf => if a = 0 then .nan else if 0 < a then .ninf else .pinf
  | .pinf, .fin b => if b = 0 then .nan else if 0 < b then .pinf else .ninf
  | .ninf, .fin b => if b = 0 then .nan else if 0 < b then .ninf else .pinf
  | .pinf, .pinf => .pinf
  | .pinf, .ninf => .ninf
  | .ninf, .pinf => .ninf
  | .ninf, .ninf => .pinf
  | _, _ => .nan

/-- One cell of a dataframe: either a float value, or a non-numeric
object on which Python `float(...)` (and pandas numeric arithmetic)
raises. -/
inductive Cell where
  | val (x : EF)
  | obj
deriving DecidableEq

/-- Python `float(c)`: succeeds exactly on numeric cells. -/
def floatCoerce : Cell → Option EF
  | .val x => some x
  | .obj => none

/-- The column index of a dataframe: flat labels, or a two-level
MultiIndex (the shape newer yfinance versions return). -/
inductive Columns where
  | flat (ns : List String)
  | multi (ns : List (String × String))
deriving DecidableEq

/-- A pandas dataframe: a column index and rows of cells. -/
structure DF where
  cols : Columns
  rows : List (List Cell)
deriving DecidableEq

/-- Lines 41-42 of app.py:
`if isinstance(df.columns, pd.MultiIndex): df.columns = df.columns.droplevel(1)`. -/
def droplevelFix (df : DF) : DF :=
  match df.cols with
  | .multi ns => ⟨.flat (ns.map Prod.fst), df.rows⟩
  | .flat _ => df

/-- Position of a label in a flat column index (first match, as in a
pandas column lookup). -/
def findCol (name : String) : List String → Option Nat
  | [] => none
  | n :: ns => if n = name then some 0 else (findCol name ns).map (· + 1)

/-- The cells of column `i`, one per row; `none` if some row is too
short (cannot happen on a rectangular frame). -/
def getCells (i : Nat) : List (List Cell) → Option (List Cell)
  | [] => some []
  | r :: rs =>
    match r[i]? with
    | none => none
    | some c => (getCells i rs).map (c :: ·)

/-- `df[name]` as a column of cells.  `none` models a `KeyError` for an
absent label; selection on a MultiIndex never happens in the script
because `droplevelFix` runs first. -/
def getCol (df : DF) (name : String) : Option (List Cell) :=
  match df.cols with
  | .multi _ => none
  | .flat ns =>
    match findCol name ns with
    | none => none
    | some i => getCells i df.rows

/-- `df['Close']`. -/
def closeCol (df : DF) : Option (List Cell) := getCol df "Close"

/-- `df['Pct_Change']`. -/
def pctCol (df : DF) : Option (List Cell) := getCol df "Pct_Change"

/-- Overwrite column `i` with `vals`, positionally. -/
def setColRows (i : Nat) : List Cell → List (List Cell) → List (List Cell)
  | v :: vs, r :: rs => r.set i v :: setColRows i vs rs
  | _, _ => []

/-- Append `vals` as a new last column, positionally. -/
def appendColRows : List Cell → List (List Cell) → List (List Cell)
  | v :: vs, r :: rs => (r ++ [v]) :: appendColRows vs rs
  | _, _ => []

/-- `df[name] = vals`: pandas column assignment — overwrite when the
label already exists, otherwise append a new column. -/
def setCol (df : DF) (name : String) (vals : List Cell) : DF :=
  match df.cols with
  | .flat ns =>
    match findCol name ns with
    | some i => ⟨.flat ns, setColRows i vals df.rows⟩
    | none => ⟨.flat (ns ++ [name]), appendColRows vals df.rows⟩
  | .multi _ => df

/-- One entry of `((df['Close'] - first_close) / first_close) * 100`
(app.py line 47); a non-numeric cell makes the pandas arithmetic raise
a `TypeError`. -/
def pctCell (b : EF) : Cell → Except Unit Cell
  | .val x => .ok (.val (efMul (efDiv (efSub x b) b) (.fin 100)))
  | .obj => .error ()

/-- The whole `Pct_Change` column, elementwise. -/
def pctCells (b : EF) : List Cell → Except Unit (List Cell)
  | [] => .ok []
  | c :: cs =>
    match pctCell b c with
    | .error e => .error e
    | .ok v =>
      match pctCells b cs with
      | .error e => .error e
      | .ok vs => .ok (v :: vs)

/-- Lines 46-47 of app.py: `first_close = float(df['Close'].iloc[0])`
followed by `df['Pct_Change'] = ((df['Close'] - first_close) / first_close) * 100`.
`Except.error` models an uncaught Python exception (`KeyError` for a
missing column, `IndexError` of `.iloc[0]` on an empty column,
`TypeError` from `float(...)` or from the pandas arithmetic on a
non-numeric cell). -/
def addPct (df : DF) : Except Unit DF :=
  match closeCol df with
  | none => .error ()
  | some closes =>
    match closes with
    | [] => .error ()
    | c0 :: _ =>
      match floatCoerce c0 with
      | none => .error ()
      | some b =>
        match pctCells b closes with
        | .error e => .error e
        | .ok vals => .ok (setCol df "Pct_Change" vals)

/-- Outcome of the `yf.download` calls for one symbol (app.py lines
34-38): the primary call returns a frame, raises `TypeError` (in which
case the fallback call's outcome decides), or raises any other
exception — e.g. a network/API failure, the spec's ProviderUnavailable. -/
inductive FetchOutcome where
  | ok (df : DF)
  | typeErrThen (r : Except Unit DF)
  | fail

/-- The `try/except TypeError` fetch block of lines 34-38: only a
`TypeError` from the primary call is caught (and answered with the
fallback call); every other exception propagates. -/
def fetchStep : FetchOutcome → Except Unit DF
  | .ok df => .ok df
  | .typeErrThen r => r
  | .fail => .error ()

/-- The body of the `for name, symbol in ticker_dict.items()` loop
(lines 32-48): fetch, flatten a MultiIndex, and — when the frame is
non-empty — add the `Pct_Change` column.  `.ok (some df)` means
`data[name] = df` was executed; `.ok none` that the empty frame was
silently skipped; `.error` that an exception escaped the loop body. -/
def perInstrument (o : FetchOutcome) : Except Unit (Option DF) :=
  match fetchStep o with
  | .error e => .error e
  | .ok df =>
    let df2 := droplevelFix df
    if df2.rows.isEmpty then .ok none
    else
      match addPct df2 with
      | .error e => .error e
      | .ok df3 => .ok (some df3)

/-- `get_data(ticker_dict, start)` (app.py lines 30-49), with the
external provider's behaviour passed in as `provider symbol start`.
The returned association list preserves the catalog's insertion order,
as a Python dict does. -/
def get_data (provider : String → String → FetchOutcome) (start : String) :
    List (String × String) → Except Unit (List (String × DF))
  | [] => .ok []
  | (name, symbol) :: rest =>
    match perInstrument (provider symbol start) with
    | .error e => .error e
    | .ok r =>
      match get_data provider start rest with
      | .error e => .error e
      | .ok tail =>
        match r with
        | some df => .ok ((name, df) :: tail)
        | none => .ok tail

/-- The page-level outcome of lines 52-56: either `macro_data` is bound
to the result of `get_data`, or any exception is caught, one error
message is shown and `st.stop()` aborts the whole page. -/
inductive Page where
  | rendered (data : List (String × DF))
  | errorStopped

/-- Lines 52-56 of app.py: `try: macro_data = get_data(...) except ...: st.stop()`. -/
def macroData (provider : String → String → FetchOutcome) (start : String)
    (catalog : List (String × String)) : Page :=
  match get_data provider start catalog with
  | .ok d => .rendered d
  | .error _ => .errorStopped

/-- What the key-metrics row shows in one column slot. -/
inductive MetricCell where
  | metric (label : String) (value delta : EF)
  | na
deriving DecidableEq

/-- Lines 64-76 of app.py, the `try` body and its `except` handler:
`current_price = float(df['Close'].iloc[-1])`,
`prev_price = float(df['Close'].iloc[-2])`, `delta = current - prev`,
with any exception (missing column, fewer than two rows, failed
coercion) answered by writing `N/A`. -/
def metricBody (name : String) (df : DF) : MetricCell :=
  match closeCol df with
  | none => .na
  | some col =>
    match col.reverse with
    | cur :: prev :: _ =>
      match floatCoerce cur, floatCoerce prev with
      | some c, some p => .metric name c (efSub c p)
      | _, _ => .na
    | _ => .na

/-- Lines 62-76 of app.py: one iteration of the metrics loop.  `none`
means the `if not df.empty` guard skipped the slot entirely (nothing is
rendered, not even `N/A`). -/
def metricCell (name : String) (df : DF) : Option MetricCell :=
  if df.rows.isEmpty then none else some (metricBody name df)

/-- A dataframe is rectangular: every row has one cell per column label. -/
def WF (df : DF) : Bool :=
  match df.cols with
  | .flat ns => df.rows.all (fun r => r.length == ns.length)
  | .multi ns => df.rows.all (fun r => r.length == ns.length)

/-- The frames a fetch outcome can deliver are rectangular (true of any
real pandas dataframe). -/
def outcomeWF : FetchOutcome → Bool
  | .ok df => WF df
  | .typeErrThen (.ok df) => WF df
  | .typeErrThen (.error _) => true
  | .fail => true

/-! Concrete frames, providers and catalogs used by the examples,
counterexamples and witnesses below. -/

/-- The spec's end-to-end example series: closes `[100, 110, 90]`. -/
def df100 : DF := ⟨.flat ["Close"], [[.val (.fin 100)], [.val (.fin 110)], [.val (.fin 90)]]⟩

/-- `df100` after normalization: `Pct_Change = [0, 10, -10]`. -/
def df100N : DF := ⟨.flat ["Close", "Pct_Change"],
  [[.val (.fin 100), .val (.fin 0)], [.val (.fin 110), .val (.fin 10)],
   [.val (.fin 90), .val (.fin (-10))]]⟩

/-- The spec's zero-baseline example series: closes `[0, 5, 10]`. -/
def dfZero : DF := ⟨.flat ["Close"], [[.val (.fin 0)], [.val (.fin 5)], [.val (.fin 10)]]⟩

/-- What the script actually produces from `dfZero`:
`Pct_Change = [nan, +inf, +inf]`. -/
def dfZeroN : DF := ⟨.flat ["Close", "Pct_Change"],
  [[.val (.fin 0), .val .nan], [.val (.fin 5), .val .pinf],
   [.val (.fin 10), .val .pinf]]⟩

/-- A two-row frame with closes `[100, 110]`. -/
def dfTwo : DF := ⟨.flat ["Close"], [[.val (.fin 100)], [.val (.fin 110)]]⟩

/-- `dfTwo` after normalization: `Pct_Change = [0, 10]`. -/
def dfTwoN : DF := ⟨.flat ["Close", "Pct_Change"],
  [[.val (.fin 100), .val (.fin 0)], [.val (.fin 110), .val (.fin 10)]]⟩

/-- A provider that always succeeds with `dfTwo`. -/
def provW : String → String → FetchOutcome := fun _ _ => .ok dfTwo

/-- A fetched frame with zero rows. -/
def dfEmpty : DF := ⟨.flat ["Close"], []⟩

/-- A single-column frame built from a list of finite closes. -/
def mkCloseDF (qs : List ℚ) : DF :=
  ⟨.flat ["Close"], qs.map (fun q => [Cell.val (.fin q)])⟩

/-- A provider whose fetch raises (ProviderUnavailable) for symbol `"B"`
and succeeds with `dfTwo` for every other symbol. -/
def provFail : String → String → FetchOutcome :=
  fun s _ => if s = "B" then .fail else .ok dfTwo

/-- A provider that always succeeds with an empty frame. -/
def provEmpty : String → String → FetchOutcome := fun _ _ => .ok dfEmpty

/-- A three-instrument catalog whose second instrument has symbol `"B"`. -/
def cat3 : List (String × String) := [("i1", "A"), ("i2", "B"), ("i3", "C")]

/-! ### Structural lemmas about the embedding -/

theorem droplevelFix_rows (df : DF) : (droplevelFix df).rows = df.rows := by
  obtain ⟨cols, rows⟩ := df
  cases cols <;> rfl

theorem WF_droplevelFix {df : DF} (h : WF df = true) : WF (droplevelFix df) = true := by
  obtain ⟨cols, rows⟩ := df
  cases cols with
  | flat ns => exact h
  | multi ns => simpa [WF, droplevelFix] using h

theorem findCol_lt {name : String} : ∀ {ns : List String} {i : Nat},
    findCol name ns = some i → i < ns.length := by
  intro ns
  induction ns with
  | nil => intro i h; simp [findCol] at h
  | cons n ns ih =>
    intro i h
    by_cases hn : n = name
    · rw [findCol, if_pos hn] at h
      injection h with h
      subst h
      simp
    · simp only [findCol, if_neg hn, Option.map_eq_some'] at h
      obtain ⟨j, hj, rfl⟩ := h
      have := ih hj
      simp only [List.length_cons]
      omega

theorem findCol_append_self {name : String} : ∀ {ns : List String},
    findCol name ns = none → findCol name (ns ++ [name]) = some ns.length := by
  intro ns
  induction ns with
  | nil => intro _; simp [findCol]
  | cons n ns ih =>
    intro h
    by_cases hn : n = name
    · simp [findCol, hn] at h
    · simp only [findCol, if_neg hn, Option.map_eq_none'] at h
      have hih := ih h
      simp only [List.cons_append, findCol, if_neg hn, List.length_cons]
      show Option.map (· + 1) (findCol name (ns ++ [name])) = some (ns.length + 1)
      rw [hih]
      rfl

theorem get_set_self : ∀ (r : List Cell) (i : Nat) (v : Cell), i < r.length →
    (r.set i v)[i]? = some v := by
  intro r
  induction r with
  | nil => intro i v h; simp at h
  | cons c cs ih =>
    intro i v h
    cases i with
    | zero => simp
    | succ j =>
      simpa using ih j v (by simp only [List.length_cons] at h; omega)

theorem get_append_length : ∀ (r : List Cell) (v : Cell),
    (r ++ [v])[r.length]? = some v := by
  intro r v
  induction r with
  | nil => simp
  | cons c cs ih =>
    simp only [List.cons_append, List.length_cons, List.getElem?_cons_succ]
    exact ih

theorem getCells_length {i : Nat} : ∀ {rs : List (List Cell)} {cs : List Cell},
    getCells i rs = some cs → cs.length = rs.length := by
  intro rs
  induction rs with
  | nil =>
    intro cs h
    simp only [getCells, Option.some_inj] at h
    simp [← h]
  | cons r rs ih =>
    intro cs h
    simp only [getCells] at h
    cases hget : r[i]? with
    | none => rw [hget] at h; simp at h
    | some c =>
      rw [hget] at h
      simp only [Option.map_eq_some'] at h
      obtain ⟨cs', hcs', rfl⟩ := h
      simp [ih hcs']

theorem getCells_setColRows {i : Nat} : ∀ (vs : List Cell) (rs : List (List Cell)),
    rs.length = vs.length → (∀ r ∈ rs, i < r.length) →
    getCells i (setColRows i vs rs) = some vs := by
  intro vs
  induction vs with
  | nil =>
    intro rs h _
    cases rs with
    | nil => rfl
    | cons r rs => simp at h
  | cons v vs ih =>
    intro rs hlen hall
    cases rs with
    | nil => simp at hlen
    | cons r rs =>
      have h1 : (r.set i v)[i]? = some v :=
        get_set_self r i v (hall r (by simp))
      have h2 : getCells i (setColRows i vs rs) = some vs :=
        ih rs (by simpa using hlen) (fun r' hr' => hall r' (by simp [hr']))
      simp [setColRows, getCells, h1, h2]

theorem getCells_appendColRows {n : Nat} : ∀ (vs : List Cell) (rs : List (List Cell)),
    rs.length = vs.length → (∀ r ∈ rs, r.length = n) →
    getCells n (appendColRows vs rs) = some vs := by
  intro vs
  induction vs with
  | nil =>
    intro rs h _
    cases rs with
    | nil => rfl
    | cons r rs => simp at h
  | cons v vs ih =>
    intro rs hlen hall
    cases rs with
    | nil => simp at hlen
    | cons r rs =>
      have h1 : (r ++ [v])[n]? = some v := by
        have := get_append_length r v
        rwa [hall r (by simp)] at this
      have h2 : getCells n (appendColRows vs rs) = some vs :=
        ih rs (by simpa using hlen) (fun r' hr' => hall r' (by simp [hr']))
      simp [appendColRows, getCells, h1, h2]

theorem setColRows_length {i : Nat} : ∀ (vs : List Cell) (rs : List (List Cell)),
    rs.length = vs.length → (setColRows i vs rs).length = rs.length := by
  intro vs
  induction vs with
  | nil =>
    intro rs h
    cases rs with
    | nil => rfl
    | cons r rs => simp at h
  | cons v vs ih =>
    intro rs hlen
    cases rs with
    | nil => simp at hlen
    | cons r rs => simp [setColRows, ih rs (by simpa using hlen)]

theorem appendColRows_length : ∀ (vs : List Cell) (rs : List (List Cell)),
    rs.length = vs.length → (appendColRows vs rs).length = rs.length := by
  intro vs
  induction vs with
  | nil =>
    intro rs h
    cases rs with
    | nil => rfl
    | cons r rs => simp at h
  | cons v vs ih =>
    intro rs hlen
    cases rs with
    | nil => simp at hlen
    | cons r rs => simp [appendColRows, ih rs (by simpa using hlen)]

theorem getCol_flat {df : DF} {name : String} {col : List Cell}
    (h : getCol df name = some col) : ∃ ns, df.cols = .flat ns := by
  obtain ⟨cols, rows⟩ := df
  cases cols with
  | flat ns => exact ⟨ns, rfl⟩
  | multi ns => simp [getCol] at h

theorem getCol_length {df : DF} {name : String} {col : List Cell}
    (h : getCol df name = some col) : col.length = df.rows.length := by
  obtain ⟨cols, rows⟩ := df
  cases cols with
  | multi ns => simp [getCol] at h
  | flat ns =>
    simp only [getCol] at h
    cases hf : findCol name ns with
    | none => rw [hf] at h; simp at h
    | some i =>
      rw [hf] at h
      exact getCells_length h

theorem WF_rows {df : DF} {ns : List String} (hc : df.cols = .flat ns)
    (h : WF df = true) : ∀ r ∈ df.rows, r.length = ns.length := by
  obtain ⟨cols, rows⟩ := df
  dsimp only at hc
  subst hc
  simpa only [WF, List.all_eq_true, beq_iff_eq] using h

theorem getCol_setCol {df : DF} {ns : List String} {name : String} {vals : List Cell}
    (hc : df.cols = .flat ns) (hwf : WF df = true)
    (hlen : vals.length = df.rows.length) :
    getCol (setCol df name vals) name = some vals := by
  have hrows := WF_rows hc hwf
  obtain ⟨cols, rows⟩ := df
  dsimp only at hc hrows hlen ⊢
  subst hc
  cases hf : findCol name ns with
  | some i =>
    have hi : i < ns.length := findCol_lt hf
    simp only [setCol, hf, getCol]
    exact getCells_setColRows vals rows hlen.symm
      (fun r hr => by rw [hrows r hr]; exact hi)
  | none =>
    simp only [setCol, hf, getCol, findCol_append_self hf]
    exact getCells_appendColRows vals rows hlen.symm hrows

theorem setCol_rows_length {df : DF} {ns : List String} {name : String} {vals : List Cell}
    (hc : df.cols = .flat ns) (hlen : vals.length = df.rows.length) :
    (setCol df name vals).rows.length = df.rows.length := by
  obtain ⟨cols, rows⟩ := df
  dsimp only at hc hlen ⊢
  subst hc
  cases hf : findCol name ns with
  | some i =>
    simp only [setCol, hf]
    exact setColRows_length vals rows hlen.symm
  | none =>
    simp only [setCol, hf]
    exact appendColRows_length vals rows hlen.symm

theorem pctCells_length {b : EF} : ∀ {cs vs : List Cell},
    pctCells b cs = .ok vs → vs.length = cs.length := by
  intro cs
  induction cs with
  | nil =>
    intro vs h
    simp only [pctCells] at h
    cases h
    rfl
  | cons c cs ih =>
    intro vs h
    simp only [pctCells] at h
    cases hc : pctCell b c with
    | error e => rw [hc] at h; cases h
    | ok v =>
      rw [hc] at h
      cases hcs : pctCells b cs with
      | error e => rw [hcs] at h; cases h
      | ok vs' =>
        rw [hcs] at h
        cases h
        simp [ih hcs]

theorem pctCells_val {b : EF} : ∀ {cs vs : List Cell},
    pctCells b cs = .ok vs → ∀ v ∈ vs, ∃ x, v = Cell.val x := by
  intro cs
  induction cs with
  | nil =>
    intro vs h
    simp only [pctCells] at h
    cases h
    intro v hv
    simp at hv
  | cons c cs ih =>
    intro vs h
    simp only [pctCells] at h
    cases hc : pctCell b c with
    | error e => rw [hc] at h; cases h
    | ok v =>
      rw [hc] at h
      cases hcs : pctCells b cs with
      | error e => rw [hcs] at h; cases h
      | ok vs' =>
        rw [hcs] at h
        cases h
        intro w hw
        rcases List.mem_cons.mp hw with rfl | hw'
        · cases c with
          | val x => exact ⟨_, by simpa [pctCell] using hc.symm⟩
          | obj => simp [pctCell] at hc
        · exact ih hcs w hw'

theorem pctCells_ok {b : EF} : ∀ {cs : List Cell},
    (∀ c ∈ cs, ∃ x, c = Cell.val x) → ∃ vs, pctCells b cs = .ok vs := by
  intro cs
  induction cs with
  | nil => intro _; exact ⟨[], rfl⟩
  | cons c cs ih =>
    intro hall
    obtain ⟨x, rfl⟩ := hall c (by simp)
    obtain ⟨vs, hvs⟩ := ih (fun c' hc' => hall c' (by simp [hc']))
    exact ⟨Cell.val (efMul (efDiv (efSub x b) b) (.fin 100)) :: vs,
      by simp [pctCells, pctCell, hvs]⟩

/-- Master specification of a successful `addPct` run: everything the
claims need about the produced frame. -/
theorem addPct_spec {df df' : DF} (hwf : WF df = true) (hok : addPct df = .ok df') :
    ∃ (c0 : Cell) (cs : List Cell) (b : EF) (vals : List Cell),
      closeCol df = some (c0 :: cs) ∧
      floatCoerce c0 = some b ∧
      pctCells b (c0 :: cs) = .ok vals ∧
      df' = setCol df "Pct_Change" vals ∧
      vals.length = df.rows.length ∧
      pctCol df' = some vals ∧
      df'.rows.length = df.rows.length := by
  unfold addPct at hok
  cases hcc : closeCol df with
  | none => simp only [hcc] at hok; cases hok
  | some closes =>
    simp only [hcc] at hok
    cases closes with
    | nil => cases hok
    | cons c0 cs =>
      cases hfc : floatCoerce c0 with
      | none => simp only [hfc] at hok; cases hok
      | some b =>
        simp only [hfc] at hok
        cases hpc : pctCells b (c0 :: cs) with
        | error e => simp only [hpc] at hok; cases hok
        | ok vals =>
          simp only [hpc, Except.ok.injEq] at hok
          subst hok
          obtain ⟨ns, hns⟩ := getCol_flat hcc
          have hclen : (c0 :: cs).length = df.rows.length := getCol_length hcc
          have hvlen : vals.length = df.rows.length := by
            rw [pctCells_length hpc]; exact hclen
          refine ⟨c0, cs, b, vals, rfl, hfc, hpc, rfl, hvlen, ?_, ?_⟩
          · exact getCol_setCol hns hwf hvlen
          · exact setCol_rows_length hns hvlen

/-! ### Concrete computations shared by several claims -/

theorem addPct_df100 : addPct df100 = .ok df100N := by
  simp [df100, df100N, addPct, closeCol, getCol, findCol, getCells, floatCoerce,
    pctCells, pctCell, setCol, setColRows, appendColRows, efSub, efDiv, efMul]
  norm_num

theorem addPct_dfTwo : addPct dfTwo = .ok dfTwoN := by
  simp [dfTwo, dfTwoN, addPct, closeCol, getCol, findCol, getCells, floatCoerce,
    pctCells, pctCell, setCol, setColRows, appendColRows, efSub, efDiv, efMul]
  norm_num

theorem perInstrument_dfTwo : perInstrument (.ok dfTwo) = .ok (some dfTwoN) := by
  have hd : droplevelFix dfTwo = dfTwo := rfl
  have hemp : dfTwo.rows.isEmpty = false := rfl
  simp [perInstrument, fetchStep, hd, hemp, addPct_dfTwo]

theorem get_data_provW :
    get_data provW "2024-01-01" [("a", "A")] = .ok [("a", dfTwoN)] := by
  have hpi : perInstrument (provW "A" "2024-01-01") = .ok (some dfTwoN) :=
    perInstrument_dfTwo
  simp [get_data, hpi]

/-- If any instrument's fetch step raises (a non-`TypeError` exception
from the primary call, or any exception from the fallback call), the
whole `get_data` loop propagates the exception. -/
theorem get_data_error (provider : String → String → FetchOutcome) (start : String) :
    ∀ (catalog : List (String × String)),
      (∃ p ∈ catalog, fetchStep (provider p.2 start) = .error ()) →
      get_data provider start catalog = .error () := by
  intro catalog
  induction catalog with
  | nil => rintro ⟨p, hp, _⟩; simp at hp
  | cons q rest ih =>
    rintro ⟨p, hp, hfail⟩
    obtain ⟨n, sym⟩ := q
    rcases List.mem_cons.mp hp with rfl | hmem
    · have hfail' : fetchStep (provider sym start) = .error () := hfail
      have hpi : perInstrument (provider sym start) = .error () := by
        unfold perInstrument
        rw [hfail']
      simp [get_data, hpi]
    · have ihres := ih ⟨p, hmem, hfail⟩
      simp only [get_data]
      cases hpi : perInstrument (provider sym start) with
      | error e => rfl
      | ok r => simp only [ihres]

/-- A successful, non-skipped loop iteration delivered a non-empty frame
with a full `Pct_Change` column. -/
theorem perInstrument_some {o : FetchOutcome} {df3 : DF}
    (hwf : outcomeWF o = true) (h : perInstrument o = .ok (some df3)) :
    df3.rows ≠ [] ∧ ∃ vals, pctCol df3 = some vals ∧ vals.length = df3.rows.length := by
  obtain ⟨df, hdf, hwfdf⟩ : ∃ df, fetchStep o = .ok df ∧ WF df = true := by
    cases o with
    | ok df => exact ⟨df, rfl, by simpa [outcomeWF] using hwf⟩
    | typeErrThen r =>
      cases r with
      | ok df => exact ⟨df, rfl, by simpa [outcomeWF] using hwf⟩
      | error e =>
        exfalso
        unfold perInstrument at h
        simp [fetchStep] at h
    | fail =>
      exfalso
      unfold perInstrument at h
      simp [fetchStep] at h
  unfold perInstrument at h
  simp only [hdf] at h
  by_cases hemp : (droplevelFix df).rows.isEmpty
  · rw [if_pos hemp] at h
    simp at h
  · rw [if_neg hemp] at h
    cases hap : addPct (droplevelFix df) with
    | error e => rw [hap] at h; simp at h
    | ok d =>
      simp only [hap, Except.ok.injEq, Option.some.injEq] at h
      subst h
      obtain ⟨c0, cs, b, vals, hcc, hfc, hpc, hdf3, hvlen, hpcol, hrlen⟩ :=
        addPct_spec (WF_droplevelFix hwfdf) hap
      have hne2 : (droplevelFix df).rows ≠ [] := by
        intro hnil
        exact hemp (by rw [hnil]; rfl)
      constructor
      · intro h3
        rw [h3] at hrlen
        exact hne2 (List.eq_nil_of_length_eq_zero hrlen.symm)
      · exact ⟨vals, hpcol, by rw [hrlen]; exact hvlen⟩

/-! ### The claims -/

/-- Claim C1, counterexample: for the catalog `cat3` whose second
instrument's fetch raises ProviderUnavailable (and the other two fetches
succeed), `get_data` does not return successful entries for instruments
1 and 3 plus a failure marker for instrument 2 — it propagates the
exception, and the page-level handler stops the whole dashboard.  (The
result type of `get_data` has no failure-marker alternative at all:
mapping values are plain frames.) -/
theorem C1_counterexample :
    get_data provFail "2024-01-01" cat3 = .error () ∧
    macroData provFail "2024-01-01" cat3 = .errorStopped := ⟨rfl, rfl⟩

/-- Claim C1, amended: if any instrument's fetch raises an exception
other than `TypeError` (e.g. ProviderUnavailable), or its
`TypeError`-fallback fetch raises, `get_data` propagates the exception:
the whole batch aborts with no per-instrument results and no failure
marker, and the page shows a single error message and stops. -/
theorem C1_amended (provider : String → String → FetchOutcome) (start : String)
    (catalog : List (String × String))
    (h : ∃ p ∈ catalog, fetchStep (provider p.2 start) = .error ()) :
    get_data provider start catalog = .error () ∧
    macroData provider start catalog = .errorStopped := by
  have hg := get_data_error provider start catalog h
  exact ⟨hg, by simp [macroData, hg]⟩

/-- Witness for C1's amended theorem at the concrete catalog `cat3`. -/
theorem C1_witness :
    get_data provFail "w" cat3 = .error () ∧
    macroData provFail "w" cat3 = .errorStopped :=
  C1_amended provFail "w" cat3 ⟨("i2", "B"), by simp [cat3], rfl⟩

/-- Claim C2, counterexample: for the raw series with closes
`[0, 5, 10]`, normalization does not yield a ZeroBaseline failure
marker: it succeeds, returning a frame whose `Pct_Change` column is
`[nan, +inf, +inf]` — exactly the NaN/infinity propagation the claim
rules out. -/
theorem C2_counterexample :
    addPct dfZero = .ok dfZeroN ∧ perInstrument (.ok dfZero) = .ok (some dfZeroN) := by
  have h : addPct dfZero = .ok dfZeroN := by
    simp [dfZero, dfZeroN, addPct, closeCol, getCol, findCol, getCells, floatCoerce,
      pctCells, pctCell, setCol, setColRows, appendColRows, efSub, efDiv, efMul]
  have hd : droplevelFix dfZero = dfZero := rfl
  have hemp : dfZero.rows.isEmpty = false := rfl
  exact ⟨h, by simp [perInstrument, fetchStep, hd, hemp, h]⟩

/-- Claim C2, amended: for every non-empty raw series of finite closes
whose first close is 0, normalization neither crashes nor produces a
failure marker: it returns a frame whose `Pct_Change` value is `nan` at
every zero-close row (in particular the baseline row) and `+inf` /
`-inf` at every positive- / negative-close row (IEEE float64
division-by-zero semantics). -/
theorem C2_amended (q0 : ℚ) (qs : List ℚ) (h0 : q0 = 0) :
    addPct (mkCloseDF (q0 :: qs)) =
      .ok ⟨.flat ["Close", "Pct_Change"],
        [Cell.val (.fin 0), Cell.val .nan] ::
          qs.map (fun q => [Cell.val (.fin q),
            Cell.val (if q = 0 then .nan else if 0 < q then .pinf else .ninf)])⟩ := by
  subst h0
  have hcells : ∀ l : List ℚ, getCells 0 (l.map (fun q => [Cell.val (.fin q)])) =
      some (l.map (fun q => Cell.val (.fin q))) := by
    intro l
    induction l with
    | nil => rfl
    | cons q l ih => simp [getCells, ih]
  have hpct : ∀ l : List ℚ, pctCells (.fin 0) (l.map (fun q => Cell.val (.fin q))) =
      .ok (l.map (fun q =>
        Cell.val (if q = 0 then .nan else if 0 < q then .pinf else .ninf))) := by
    intro l
    induction l with
    | nil => rfl
    | cons q l ih =>
      have hone : pctCell (.fin 0) (Cell.val (.fin q)) =
          .ok (Cell.val (if q = 0 then .nan else if 0 < q then .pinf else .ninf)) := by
        rcases lt_trichotomy q 0 with hq | hq | hq
        · norm_num [pctCell, efSub, efDiv, efMul, hq.ne, hq.not_lt, hq]
        · norm_num [pctCell, efSub, efDiv, efMul, hq]
        · norm_num [pctCell, efSub, efDiv, efMul, hq.ne', hq]
      simp [pctCells, hone, ih]
  have hpct0 : pctCells (.fin 0)
      (Cell.val (.fin 0) :: qs.map (fun q => Cell.val (.fin q))) =
      .ok (Cell.val .nan :: qs.map (fun q =>
        Cell.val (if q = 0 then .nan else if 0 < q then .pinf else .ninf))) := by
    have hhead : pctCell (.fin 0) (Cell.val (.fin 0)) = .ok (Cell.val .nan) := by
      simp [pctCell, efSub, efDiv, efMul]
    simp [pctCells, hhead, hpct qs]
  have happ : ∀ (l : List ℚ) (f g : ℚ → Cell),
      appendColRows (l.map f) (l.map (fun q => [g q])) =
        l.map (fun q => [g q, f q]) := by
    intro l f g
    induction l with
    | nil => rfl
    | cons q l ih => simp [appendColRows, ih]
  have hcc : closeCol (mkCloseDF (0 :: qs)) =
      some (Cell.val (.fin 0) :: qs.map (fun q : ℚ => Cell.val (.fin q))) := by
    simp only [closeCol, getCol, mkCloseDF]
    rw [show findCol "Close" ["Close"] = some 0 from rfl]
    simpa using hcells (0 :: qs)
  unfold addPct
  rw [hcc]
  simp only [floatCoerce]
  rw [hpct0]
  simp only [setCol, mkCloseDF]
  rw [show findCol "Pct_Change" ["Close"] = none from rfl]
  simp [appendColRows, happ qs]

/-- Witness for C2's amended theorem at closes `[0, 5, -3]`. -/
theorem C2_witness :
    addPct (mkCloseDF ([0, 5, -3] : List ℚ)) =
      .ok ⟨.flat ["Close", "Pct_Change"],
        [Cell.val (.fin 0), Cell.val .nan] ::
          ([5, -3] : List ℚ).map (fun q => [Cell.val (.fin q),
            Cell.val (if q = 0 then .nan else if 0 < q then .pinf else .ninf)])⟩ :=
  C2_amended 0 [5, -3] rfl

/-- Claim C3, counterexample: an instrument whose fetch succeeds with a
zero-row frame is not handed to downstream consumers as an empty
NormalizedSeries — it is silently dropped: the batch succeeds but the
returned mapping has no entry for the instrument at all. -/
theorem C3_counterexample :
    get_data provEmpty "2024" [("i1", "A")] = .ok [] ∧
    perInstrument (.ok dfEmpty) = .ok none := ⟨rfl, rfl⟩

/-- Claim C3, amended: a zero-row fetch result is not an error (the
batch call succeeds), but the instrument is omitted from the returned
mapping rather than included as an empty NormalizedSeries. -/
theorem C3_amended (provider : String → String → FetchOutcome) (start name sym : String)
    (df : DF) (hp : provider sym start = .ok df) (he : df.rows = []) :
    get_data provider start [(name, sym)] = .ok [] := by
  have hpi : perInstrument (provider sym start) = .ok none := by
    unfold perInstrument
    rw [hp]
    simp [fetchStep, droplevelFix_rows, he]
  simp [get_data, hpi]

/-- Witness for C3's amended theorem at a concrete empty frame. -/
theorem C3_witness : get_data provEmpty "w" [("x", "S")] = .ok [] :=
  C3_amended provEmpty "w" "x" "S" dfEmpty rfl rfl

/-- Claim C4: for every rectangular raw series whose `Close` column
starts with a finite nonzero baseline `b` and otherwise holds numeric
cells, normalization succeeds and the first `Pct_Change` entry is
exactly `0` (as a float: `(b - b) / b * 100 == 0.0` exactly). -/
theorem C4_pct_first_zero (df : DF) (b : ℚ) (rest : List Cell)
    (hwf : WF df = true)
    (hclose : closeCol df = some (.val (.fin b) :: rest))
    (hval : ∀ c ∈ rest, ∃ x, c = Cell.val x)
    (hb : b ≠ 0) :
    ∃ df' tail, addPct df = .ok df' ∧ pctCol df' = some (Cell.val (.fin 0) :: tail) := by
  obtain ⟨vs, hvs⟩ := pctCells_ok (b := .fin b) hval
  have hhead : pctCell (.fin b) (Cell.val (.fin b)) = .ok (Cell.val (.fin 0)) := by
    simp [pctCell, efSub, efDiv, efMul, hb]
  have hcells : pctCells (.fin b) (Cell.val (.fin b) :: rest) =
      .ok (Cell.val (.fin 0) :: vs) := by
    simp [pctCells, hhead, hvs]
  have hok : addPct df = .ok (setCol df "Pct_Change" (Cell.val (.fin 0) :: vs)) := by
    unfold addPct
    simp only [hclose, floatCoerce, hcells]
  refine ⟨_, vs, hok, ?_⟩
  obtain ⟨ns, hns⟩ := getCol_flat hclose
  have h1 := getCol_length hclose
  have h2 := pctCells_length hcells
  exact getCol_setCol hns hwf (h2.trans h1)

/-- Witness for C4 at the series with closes `[100, 110, 90]`. -/
theorem C4_witness :
    ∃ df' tail, addPct df100 = .ok df' ∧
      pctCol df' = some (Cell.val (.fin 0) :: tail) :=
  C4_pct_first_zero df100 100 [Cell.val (.fin 110), Cell.val (.fin 90)] rfl rfl
    (by rintro c hc; simp at hc; rcases hc with rfl | rfl <;> exact ⟨_, rfl⟩)
    (by norm_num)

/-- Claim C5: every raw series that normalizes successfully yields a
frame with exactly as many rows as the input, whose `Pct_Change` column
has a (numeric) value for every row. -/
theorem C5_row_count (df df' : DF) (hwf : WF df = true) (_hne : df.rows ≠ [])
    (hok : addPct df = .ok df') :
    df'.rows.length = df.rows.length ∧
    ∃ vals, pctCol df' = some vals ∧ vals.length = df'.rows.length ∧
      ∀ v ∈ vals, ∃ x, v = Cell.val x := by
  obtain ⟨c0, cs, b, vals, hcc, hfc, hpc, rfl, hvlen, hpcol, hrlen⟩ :=
    addPct_spec hwf hok
  exact ⟨hrlen, vals, hpcol, by rw [hrlen]; exact hvlen, pctCells_val hpc⟩

/-- Witness for C5 at the series with closes `[100, 110, 90]`. -/
theorem C5_witness :
    df100N.rows.length = df100.rows.length ∧
    ∃ vals, pctCol df100N = some vals ∧ vals.length = df100N.rows.length ∧
      ∀ v ∈ vals, ∃ x, v = Cell.val x :=
  C5_row_count df100 df100N rfl (by decide) addPct_df100

/-- Claim C6: two fetched frames with identical cell content, one with
flat column labels and one wrapping each label in a singleton
MultiIndex level (same level-0 names), are processed identically by the
loop body: after `droplevel(1)` the frames coincide, so the `Pct_Change`
output (indeed the entire result) is identical. -/
theorem C6_shape_tolerance (ns : List String) (ms : List (String × String))
    (rows : List (List Cell)) (h : ms.map Prod.fst = ns) :
    perInstrument (.ok ⟨.multi ms, rows⟩) = perInstrument (.ok ⟨.flat ns, rows⟩) := by
  subst h
  rfl

/-- Witness for C6 at a concrete two-row frame. -/
theorem C6_witness :
    perInstrument (.ok ⟨.multi [("Close", "SPY")],
      [[Cell.val (.fin 1)], [Cell.val (.fin 2)]]⟩) =
    perInstrument (.ok ⟨.flat ["Close"],
      [[Cell.val (.fin 1)], [Cell.val (.fin 2)]]⟩) :=
  C6_shape_tolerance ["Close"] [("Close", "SPY")]
    [[Cell.val (.fin 1)], [Cell.val (.fin 2)]] rfl

/-- Claim C7: the metrics row never crashes on a (non-empty, as every
entry of `macro_data` is) series: it renders
`(label, latest_close, latest_close - previous_close)` when the last two
closes coerce to floats, and `N/A` when the series has fewer than two
rows or a coercion fails. -/
theorem C7_metric_safety (name : String) (df : DF) (hne : df.rows ≠ []) :
    (∀ col cur prev rest c p, closeCol df = some col →
        col.reverse = cur :: prev :: rest →
        floatCoerce cur = some c → floatCoerce prev = some p →
        metricCell name df = some (.metric name c (efSub c p)))
    ∧ (∀ col, closeCol df = some col → col.length < 2 →
        metricCell name df = some .na)
    ∧ (∀ col cur prev rest, closeCol df = some col →
        col.reverse = cur :: prev :: rest →
        floatCoerce cur = none ∨ floatCoerce prev = none →
        metricCell name df = some .na) := by
  have hni : df.rows.isEmpty = false := by
    cases hr : df.rows with
    | nil => exact absurd hr hne
    | cons r rs => rfl
  refine ⟨?_, ?_, ?_⟩
  · intro col cur prev rest c p hcol hrev hc hp
    simp [metricCell, hni, metricBody, hcol, hrev, hc, hp]
  · intro col hcol hlen
    have hrl : col.reverse.length < 2 := by simpa using hlen
    rcases hr : col.reverse with _ | ⟨a, _ | ⟨b', t⟩⟩
    · simp [metricCell, hni, metricBody, hcol, hr]
    · simp [metricCell, hni, metricBody, hcol, hr]
    · rw [hr] at hrl
      simp only [List.length_cons] at hrl
      omega
  · intro col cur prev rest hcol hrev hcp
    rcases hcp with hc | hp
    · simp [metricCell, hni, metricBody, hcol, hrev, hc]
    · cases hfc : floatCoerce cur with
      | none => simp [metricCell, hni, metricBody, hcol, hrev, hfc]
      | some c => simp [metricCell, hni, metricBody, hcol, hrev, hfc, hp]

/-- Witness for C7 at the two-row series with closes `[100, 110]`. -/
theorem C7_witness :
    metricCell "S" dfTwo =
      some (.metric "S" (.fin 110) (efSub (.fin 110) (.fin 100))) :=
  (C7_metric_safety "S" dfTwo (by decide)).1
    [Cell.val (.fin 100), Cell.val (.fin 110)]
    (Cell.val (.fin 110)) (Cell.val (.fin 100)) [] (.fin 110) (.fin 100)
    rfl rfl rfl rfl

/-- Claim C8: the pipeline is a pure function of its inputs — with the
external fetch results held fixed (the `provider` argument), two calls
of `get_data` on identical input are identical, and likewise for the
per-series normalization; there is no hidden state in the computation
(the `st.cache_data` memoization can therefore never change a result,
only avoid recomputing it). -/
theorem C8_deterministic (provider : String → String → FetchOutcome) (start : String)
    (catalog : List (String × String)) (df : DF) :
    get_data provider start catalog = get_data provider start catalog ∧
    addPct df = addPct df :=
  ⟨rfl, rfl⟩

/-- Claim C9: the raw series with closes `[100, 110, 90]` normalizes to
`Pct_Change = [0, 10, -10]`. -/
theorem C9_example : addPct df100 = .ok df100N := addPct_df100

/-- Claim C10: whenever `get_data` succeeds (given that the provider
only ever delivers rectangular frames), every entry of the returned
mapping is a non-empty frame carrying a `Pct_Change` value for every
row, the mapping's key set is a subset of the catalog's labels, and —
for a catalog with distinct labels — an instrument whose fetch returned
a zero-row frame is absent from the mapping. -/
theorem C10_invariant (provider : String → String → FetchOutcome) (start : String) :
    ∀ (catalog : List (String × String)) (data : List (String × DF)),
      (∀ p ∈ catalog, outcomeWF (provider p.2 start) = true) →
      get_data provider start catalog = .ok data →
      ((∀ q ∈ data, q.2.rows ≠ [] ∧ ∃ vals, pctCol q.2 = some vals ∧
          vals.length = q.2.rows.length)
       ∧ (∀ q ∈ data, q.1 ∈ catalog.map Prod.fst)
       ∧ ((catalog.map Prod.fst).Nodup →
           ∀ p ∈ catalog, ∀ df, provider p.2 start = .ok df →
             (droplevelFix df).rows = [] → p.1 ∉ data.map Prod.fst)) := by
  intro catalog
  induction catalog with
  | nil =>
    intro data _ hok
    simp only [get_data, Except.ok.injEq] at hok
    subst hok
    refine ⟨by simp, by simp, ?_⟩
    intro _ p hp
    simp at hp
  | cons q rest ih =>
    obtain ⟨n, sym⟩ := q
    intro data hwf hok
    have hwfH : outcomeWF (provider sym start) = true :=
      hwf (n, sym) (List.mem_cons_self _ _)
    have hwfR : ∀ p ∈ rest, outcomeWF (provider p.2 start) = true :=
      fun p hp => hwf p (List.mem_cons_of_mem _ hp)
    simp only [get_data] at hok
    cases hpi : perInstrument (provider sym start) with
    | error e => rw [hpi] at hok; simp at hok
    | ok r =>
      simp only [hpi] at hok
      cases hrest : get_data provider start rest with
      | error e => rw [hrest] at hok; simp at hok
      | ok tail =>
        simp only [hrest] at hok
        obtain ⟨h1R, h2R, h3R⟩ := ih tail hwfR hrest
        cases r with
        | none =>
          simp only [Except.ok.injEq] at hok
          subst hok
          refine ⟨h1R, ?_, ?_⟩
          · intro q hq
            simp only [List.map_cons]
            exact List.mem_cons_of_mem _ (h2R q hq)
          · intro hnd p hp df hpdf hempty
            simp only [List.map_cons, List.nodup_cons] at hnd
            rcases List.mem_cons.mp hp with rfl | hmem
            · intro hmem_n
              obtain ⟨q', hq', hq'n⟩ := List.mem_map.mp hmem_n
              have hq'in := h2R q' hq'
              rw [hq'n] at hq'in
              exact hnd.1 hq'in
            · exact h3R hnd.2 p hmem df hpdf hempty
        | some df3 =>
          simp only [Except.ok.injEq] at hok
          subst hok
          refine ⟨?_, ?_, ?_⟩
          · intro q hq
            rcases List.mem_cons.mp hq with rfl | hq'
            · exact perInstrument_some hwfH hpi
            · exact h1R q hq'
          · intro q hq
            simp only [List.map_cons]
            rcases List.mem_cons.mp hq with rfl | hq'
            · exact List.mem_cons_self _ _
            · exact List.mem_cons_of_mem _ (h2R q hq')
          · intro hnd p hp df hpdf hempty
            simp only [List.map_cons, List.nodup_cons] at hnd
            rcases List.mem_cons.mp hp with rfl | hmem
            · exfalso
              have hpdf' : provider sym start = .ok df := hpdf
              rw [hpdf'] at hpi
              unfold perInstrument at hpi
              simp [fetchStep, hempty] at hpi
            · simp only [List.map_cons, List.mem_cons, not_or]
              constructor
              · intro heq
                have hp1 : p.1 ∈ rest.map Prod.fst := List.mem_map_of_mem _ hmem
                rw [heq] at hp1
                exact hnd.1 hp1
              · exact h3R hnd.2 p hmem df hpdf hempty

/-- Witness for C10 at a one-instrument catalog whose fetch succeeds
with the two-row frame `dfTwo`. -/
theorem C10_witness :
    ((∀ q ∈ [("a", dfTwoN)], q.2.rows ≠ [] ∧ ∃ vals, pctCol q.2 = some vals ∧
        vals.length = q.2.rows.length)
     ∧ (∀ q ∈ [("a", dfTwoN)], q.1 ∈ [("a", "A")].map Prod.fst)
     ∧ (([("a", "A")].map Prod.fst).Nodup →
         ∀ p ∈ [("a", "A")], ∀ df, provW p.2 "2024-01-01" = .ok df →
           (droplevelFix df).rows = [] → p.1 ∉ [("a", dfTwoN)].map Prod.fst)) :=
  C10_invariant provW "2024-01-01" [("a", "A")] [("a", dfTwoN)]
    (fun _ _ => rfl) get_data_provW

end Macrodash
